import Mathlib

/-!
Verification of `clean_notebooks.py`: a shallow embedding of the notebook
cleaner (JSON cell transform, filesystem walk, per-file error handling)
together with proofs of the specified properties.

Python values parsed from JSON are modelled by the inductive type `Json`;
Python `dict`s are insertion-ordered key/value lists with distinct keys,
numbers are modelled as integers (every notebook field the cleaner touches is
integer- or null-valued).  Python exceptions are modelled by `Except String`.
-/

/-- JSON values as produced by Python `json.load`: objects are
insertion-ordered key/value lists (Python dicts never hold duplicate keys). -/
inductive Json where
  | null
  | bool (bv : Bool)
  | num (iv : Int)
  | str (s : String)
  | arr (elts : List Json)
  | obj (fields : List (String × Json))

/-- Lookup of a key in a Python dict, modelled on the key/value list (the
first binding wins; `json.load` never produces duplicate keys). -/
def plookup : List (String × Json) → String → Option Json
  | [], _ => none
  | (k2, v) :: rest, k => if k2 = k then some v else plookup rest k

/-- Python dict assignment `d[k] = v`: replaces the value of an existing key
in place (insertion order kept) and appends a fresh binding otherwise. -/
def setKey : List (String × Json) → String → Json → List (String × Json)
  | [], k, v => [(k, v)]
  | (k2, v2) :: rest, k, v =>
      if k2 = k then (k, v) :: rest else (k2, v2) :: setKey rest k v

/-- Field access on a JSON value, for stating properties: `none` when the
value is not an object or lacks the key. -/
def getKey : Json → String → Option Json
  | .obj fields, k => plookup fields k
  | _, _ => none

/-- Whether a JSON value is an object carrying the given key. -/
def hasKey (j : Json) (k : String) : Bool := (getKey j k).isSome

/-- Whether the character list `p` starts the character list `c`. -/
def startsWithChars : List Char → List Char → Bool
  | p :: ps, c :: cs => p = c && startsWithChars ps cs
  | rest, _ => rest.isEmpty

/-- Whether the character list `p` occurs inside the character list `c`
(Python substring containment `p in c` for strings). -/
def hasSubstring : List Char → List Char → Bool
  | p, [] => startsWithChars p []
  | p, c :: cs => startsWithChars p (c :: cs) || hasSubstring p cs

/-- Python equality of a JSON value with the string literal `"code"`
(line 14, `cell['cell_type'] == 'code'`): true only for that string. -/
def isCodeType : Json → Bool
  | .str s => s == "code"
  | _ => false

/-- Python membership `k in v`: key test for dicts, element equality for
lists, substring test for strings, `TypeError` otherwise (line 22,
`'execution' in cell['metadata']`). -/
def pyContains : Json → String → Except String Bool
  | .obj fields, k => .ok (fields.any (fun p => p.1 == k))
  | .arr elts, k =>
      .ok (elts.any (fun e => match e with | .str s => s == k | _ => false))
  | .str s, k => .ok (hasSubstring k.data s.data)
  | _, _ => .error "TypeError: argument is not iterable"

/-- Python item assignment `v[k] = w` with a string key: succeeds only on a
dict (line 23, `cell['metadata']['execution'] = {}`). -/
def pySetItem : Json → String → Json → Except String Json
  | .obj fields, k, v => .ok (.obj (setKey fields k v))
  | _, _, _ => .error "TypeError: object does not support item assignment"

/-- Lines 16-17: `if 'outputs' in cell: cell['outputs'] = []`. -/
def clearOutputs (fields : List (String × Json)) : List (String × Json) :=
  if (plookup fields "outputs").isSome
  then setKey fields "outputs" (.arr []) else fields

/-- Lines 18-19: `if 'execution_count' in cell: cell['execution_count'] = None`. -/
def clearCount (fields : List (String × Json)) : List (String × Json) :=
  if (plookup fields "execution_count").isSome
  then setKey fields "execution_count" .null else fields

/-- Lines 20-23: `if 'metadata' in cell: if 'execution' in cell['metadata']:
cell['metadata']['execution'] = \x7b\x7d`. -/
def clearExecMeta (fields : List (String × Json)) :
    Except String (List (String × Json)) :=
  match plookup fields "metadata" with
  | none => .ok fields
  | some md =>
      match pyContains md "execution" with
      | .error e => .error e
      | .ok false => .ok fields
      | .ok true =>
          match pySetItem md "execution" (.obj []) with
          | .error e => .error e
          | .ok md2 => .ok (setKey fields "metadata" md2)

/-- Body of the per-cell loop of `clean_notebook` (lines 14-23): for a code
cell, clear `outputs` and `execution_count` when present and empty the
`execution` entry of `metadata` when present; other cells pass through. -/
def cleanCell : Json → Except String Json
  | .obj fields =>
      match plookup fields "cell_type" with
      | none => .error "KeyError: cell_type"
      | some ct =>
          if isCodeType ct then
            match clearExecMeta (clearCount (clearOutputs fields)) with
            | .error e => .error e
            | .ok g => .ok (.obj g)
          else .ok (.obj fields)
  | .arr _ => .error "TypeError: list indices must be integers"
  | _ => .error "TypeError: value is not subscriptable"

/-- The cell loop over a Python list: first failing cell aborts the whole
transform with its exception. -/
def mapCells : List Json → Except String (List Json)
  | [] => .ok []
  | c :: cs =>
      match cleanCell c with
      | .error e => .error e
      | .ok c2 =>
          match mapCells cs with
          | .error e => .error e
          | .ok cs2 => .ok (c2 :: cs2)

/-- Iteration `for cell in notebook['cells']` (line 13) on an arbitrary JSON
value: lists iterate their elements; a nonempty string yields its characters
and a nonempty dict its keys, both of which fail at `cell['cell_type']`;
other values are not iterable. -/
def cleanCellsVal : Json → Except String Json
  | .arr cells =>
      match mapCells cells with
      | .error e => .error e
      | .ok cells2 => .ok (.arr cells2)
  | .str s =>
      if s = "" then .ok (.str "")
      else .error "TypeError: string indices must be integers"
  | .obj [] => .ok (.obj [])
  | .obj (_ :: _) => .error "TypeError: string indices must be integers"
  | _ => .error "TypeError: value is not iterable"

/-- In-memory transform of `clean_notebook` (lines 13-23): fetch
`notebook['cells']`, clean every cell, and leave the mutated document. -/
def transformNotebook : Json → Except String Json
  | .obj fields =>
      match plookup fields "cells" with
      | none => .error "KeyError: cells"
      | some cellsVal =>
          match cleanCellsVal cellsVal with
          | .error e => .error e
          | .ok cellsVal2 => .ok (.obj (setKey fields "cells" cellsVal2))
  | .arr _ => .error "TypeError: list indices must be integers"
  | _ => .error "TypeError: value is not subscriptable"

/-- The four JSON whitespace characters, by code point. -/
def isWsChar (c : Char) : Bool := [32, 9, 10, 13].contains c.toNat

/-- Whitespace skipping of the JSON grammar. -/
def skipWs : List Char → List Char
  | [] => []
  | c :: cs => if isWsChar c then skipWs cs else c :: cs

/-- Decimal digit test, by code point (48 to 57). -/
def isDigitChar (c : Char) : Bool := 48 ≤ c.toNat && c.toNat ≤ 57

/-- Numeric value of a decimal digit. -/
def digitNat (c : Char) : Nat := c.toNat - 48

/-- Consume a run of decimal digits, accumulating their value. -/
def parseDigits : List Char → Nat → Nat × List Char
  | [], acc => (acc, [])
  | c :: cs, acc =>
      if isDigitChar c then parseDigits cs (acc * 10 + digitNat c)
      else (acc, c :: cs)

/-- The JSON string escape table accepted by the model, as
(escape letter, decoded character) pairs. -/
def escTable : List (Char × Char) :=
  [('"', '"'), ('\\', '\\'), ('/', '/'), ('n', '\n'), ('t', '\t'),
   ('r', '\r'), ('b', Char.ofNat 8), ('f', Char.ofNat 12)]

/-- Decode one JSON string escape via the table. -/
def escChar (e : Char) : Option Char :=
  (escTable.find? (fun pr => pr.1 == e)).map (fun pr => pr.2)

/-- Parse the body of a JSON string after the opening quote, returning the
decoded characters and the remaining input. -/
def parseStringChars : List Char → Except String (List Char × List Char)
  | [] => .error "unterminated string"
  | '"' :: cs => .ok ([], cs)
  | '\\' :: [] => .error "unterminated escape"
  | '\\' :: e :: cs =>
      match escChar e with
      | none => .error "unsupported escape"
      | some c =>
          match parseStringChars cs with
          | .error msg => .error msg
          | .ok (s, rest) => .ok (c :: s, rest)
  | c :: cs =>
      match parseStringChars cs with
      | .error msg => .error msg
      | .ok (s, rest) => .ok (c :: s, rest)

/-- Consume an expected literal character sequence, returning the remainder. -/
def dropLit : List Char → List Char → Option (List Char)
  | [], s => some s
  | p :: ps, c :: cs => if p = c then dropLit ps cs else none
  | _ :: _, [] => none

/-- The opening brace character, written by code point. -/
def lbrace : Char := Char.ofNat 123

/-- The closing brace character, written by code point. -/
def rbrace : Char := Char.ofNat 125

mutual

/-- Recursive-descent JSON value parser, modelling what Python `json.load`
accepts (restricted to integer numerals and the escapes of `escChar`; the
notebooks the cleaner handles need no more).  The fuel argument only bounds
recursion depth. -/
def parseVal : Nat → List Char → Except String (Json × List Char)
  | 0, _ => .error "recursion limit"
  | Nat.succ fuel, s0 =>
      match skipWs s0 with
      | [] => .error "Expecting value"
      | 'n' :: rest =>
          match dropLit "ull".data rest with
          | some r2 => .ok (.null, r2)
          | none => .error "Expecting value"
      | 't' :: rest =>
          match dropLit "rue".data rest with
          | some r2 => .ok (.bool true, r2)
          | none => .error "Expecting value"
      | 'f' :: rest =>
          match dropLit "alse".data rest with
          | some r2 => .ok (.bool false, r2)
          | none => .error "Expecting value"
      | '"' :: rest =>
          match parseStringChars rest with
          | .error e => .error e
          | .ok (chars, rest2) => .ok (.str (String.mk chars), rest2)
      | '-' :: c :: rest =>
          if isDigitChar c then
            let pr := parseDigits rest (digitNat c)
            .ok (.num (-(pr.1 : Int)), pr.2)
          else .error "Expecting value"
      | '[' :: rest => parseArr fuel rest
      | c :: rest =>
          if c = lbrace then parseObj fuel rest
          else if isDigitChar c then
            let pr := parseDigits rest (digitNat c)
            .ok (.num (pr.1 : Int), pr.2)
          else .error "Expecting value"

/-- Parse an array body after `[`. -/
def parseArr : Nat → List Char → Except String (Json × List Char)
  | 0, _ => .error "recursion limit"
  | Nat.succ fuel, s0 =>
      match skipWs s0 with
      | ']' :: rest => .ok (.arr [], rest)
      | s =>
          match parseVal fuel s with
          | .error e => .error e
          | .ok (v, rest) => parseArrTail fuel [v] rest

/-- Parse `, item`* `]` after the first array item. -/
def parseArrTail : Nat → List Json → List Char → Except String (Json × List Char)
  | 0, _, _ => .error "recursion limit"
  | Nat.succ fuel, acc, s0 =>
      match skipWs s0 with
      | ']' :: rest => .ok (.arr acc.reverse, rest)
      | ',' :: rest =>
          match parseVal fuel rest with
          | .error e => .error e
          | .ok (v, rest2) => parseArrTail fuel (v :: acc) rest2
      | _ => .error "Expecting delimiter"

/-- Parse an object body after the opening brace. -/
def parseObj : Nat → List Char → Except String (Json × List Char)
  | 0, _ => .error "recursion limit"
  | Nat.succ fuel, s0 =>
      match skipWs s0 with
      | [] => .error "Expecting property name"
      | '"' :: rest =>
          match parseStringChars rest with
          | .error e => .error e
          | .ok (kchars, rest2) => parseObjPair fuel [] (String.mk kchars) rest2
      | c :: rest =>
          if c = rbrace then .ok (.obj [], rest)
          else .error "Expecting property name"

/-- Parse `: value` after an object key, then the following pairs.  Repeated
keys overwrite earlier bindings, as in a Python dict. -/
def parseObjPair : Nat → List (String × Json) → String → List Char →
    Except String (Json × List Char)
  | 0, _, _, _ => .error "recursion limit"
  | Nat.succ fuel, acc, key, s0 =>
      match skipWs s0 with
      | ':' :: rest =>
          match parseVal fuel rest with
          | .error e => .error e
          | .ok (v, rest2) => parseObjTail fuel (setKey acc key v) rest2
      | _ => .error "Expecting colon"

/-- Parse `, "key": value`* and the closing brace of an object body. -/
def parseObjTail : Nat → List (String × Json) → List Char →
    Except String (Json × List Char)
  | 0, _, _ => .error "recursion limit"
  | Nat.succ fuel, acc, s0 =>
      match skipWs s0 with
      | ',' :: rest =>
          match skipWs rest with
          | '"' :: rest2 =>
              match parseStringChars rest2 with
              | .error e => .error e
              | .ok (kchars, rest3) => parseObjPair fuel acc (String.mk kchars) rest3
          | _ => .error "Expecting property name"
      | c :: rest =>
          if c = rbrace then .ok (.obj acc, rest)
          else .error "Expecting delimiter"
      | [] => .error "Expecting delimiter"

end

/-- Python `json.load` (line 10) on the file text: parse one value and demand
the remaining input be blank. -/
def pyLoads (s : String) : Except String Json :=
  match parseVal (2 * s.data.length + 8) s.data with
  | .error e => .error e
  | .ok (j, rest) =>
      match skipWs rest with
      | [] => .ok j
      | _ => .error "Extra data"

/-- Lower-case hexadecimal digit, by code point. -/
def hexDigit (n : Nat) : Char :=
  Char.ofNat (if n < 10 then 48 + n else 87 + n)

/-- Escaping of one character inside a dumped JSON string under
`ensure_ascii=False`: only the quote, the backslash and control characters
are escaped; anything else (non-ASCII included) stays literal. -/
def escapeStringChar (c : Char) : List Char :=
  if c = '"' then ['\\', '"']
  else if c = '\\' then ['\\', '\\']
  else if c = '\n' then ['\\', 'n']
  else if c = '\t' then ['\\', 't']
  else if c = '\r' then ['\\', 'r']
  else if c.toNat = 8 then ['\\', 'b']
  else if c.toNat = 12 then ['\\', 'f']
  else if c.toNat < 32 then
    "\\u00".data ++ [hexDigit (c.toNat / 16), hexDigit (c.toNat % 16)]
  else [c]

/-- Serialize a string literal as `json.dump` does with `ensure_ascii=False`. -/
def dumpString (s : String) : String :=
  "\"" ++ String.mk (s.data.foldr (fun c acc => escapeStringChar c ++ acc) []) ++ "\""

/-- A run of `n` spaces. -/
def indentChars (n : Nat) : String := String.mk (List.replicate n ' ')

mutual

/-- Serialization of `json.dump(notebook, f, indent=2, ensure_ascii=False)`
(line 27): two-space indentation per level, `","`/`": "` separators, keys in
record order, non-ASCII characters literal. -/
def dumpVal : Nat → Json → String
  | _, .null => "null"
  | _, .bool true => "true"
  | _, .bool false => "false"
  | _, .num n => toString n
  | _, .str s => dumpString s
  | _, .arr [] => "[]"
  | lvl, .arr (x :: xs) =>
      "[\n" ++ dumpItems (lvl + 1) (x :: xs) ++ "\n" ++ indentChars (2 * lvl)
        ++ "]"
  | _, .obj [] => "\x7b\x7d"
  | lvl, .obj (p :: ps) =>
      "\x7b\n" ++ dumpFields (lvl + 1) (p :: ps) ++ "\n" ++ indentChars (2 * lvl)
        ++ "\x7d"

/-- Serialize array items, one per line. -/
def dumpItems : Nat → List Json → String
  | _, [] => ""
  | lvl, [x] => indentChars (2 * lvl) ++ dumpVal lvl x
  | lvl, x :: y :: ys =>
      indentChars (2 * lvl) ++ dumpVal lvl x ++ ",\n" ++ dumpItems lvl (y :: ys)

/-- Serialize object fields, one per line, in record order. -/
def dumpFields : Nat → List (String × Json) → String
  | _, [] => ""
  | lvl, [(k, v)] => indentChars (2 * lvl) ++ dumpString k ++ ": " ++ dumpVal lvl v
  | lvl, (k, v) :: p :: ps =>
      indentChars (2 * lvl) ++ dumpString k ++ ": " ++ dumpVal lvl v ++ ",\n"
        ++ dumpFields lvl (p :: ps)

end

/-- Top-level serialization used by the persist step. -/
def pyDumps (j : Json) : String := dumpVal 0 j

/-- Filesystem state: path/content associations plus a write-permission map.
Only what the cleaner observes is modelled. -/
structure FS where
  files : List (String × String)
  writable : String → Bool

/-- Path lookup in the filesystem contents. -/
def fsLookup : List (String × String) → String → Option String
  | [], _ => none
  | (p, c) :: rest, q => if p = q then some c else fsLookup rest q

/-- Replace or create a path's content. -/
def fsSet : List (String × String) → String → String → List (String × String)
  | [], p, c => [(p, c)]
  | (p2, c2) :: rest, p, c =>
      if p2 = p then (p, c) :: rest else (p2, c2) :: fsSet rest p c

/-- Model of `open(path, 'r')` followed by a full read (line 9): fails when
the path is absent. -/
def fsRead (fs : FS) (path : String) : Except String String :=
  match fsLookup fs.files path with
  | none => .error ("FileNotFoundError: " ++ path)
  | some c => .ok c

/-- Model of `open(path, 'w')` followed by a full write (line 26): replaces
the prior content entirely, or raises when the path is not writable. -/
def fsWrite (fs : FS) (path : String) (content : String) : Except String FS :=
  if fs.writable path then .ok ⟨fsSet fs.files path content, fs.writable⟩
  else .error ("PermissionError: " ++ path)

/-- The load-transform-persist pipeline inside the `try` of `clean_notebook`
(lines 8-27): the first exception anywhere aborts it. -/
def cleanPipeline (fs : FS) (path : String) : Except String FS :=
  match fsRead fs path with
  | .error e => .error e
  | .ok content =>
      match pyLoads content with
      | .error e => .error e
      | .ok nb =>
          match transformNotebook nb with
          | .error e => .error e
          | .ok nb2 => fsWrite fs path (pyDumps nb2)

/-- `clean_notebook` (lines 6-33): run the pipeline; on success print
`Cleaned:` and return True, on any exception print `Error processing` with
the path and message and return False. -/
def clean_notebook (fs : FS) (path : String) : FS × Bool × List String :=
  match cleanPipeline fs path with
  | .ok fs2 => (fs2, true, ["Cleaned: " ++ path])
  | .error e => (fs, false, ["Error processing " ++ path ++ ": " ++ e])

/-- The cleaning loop of `main` (lines 51-54): process every path in order,
threading the filesystem, counting successes, collecting printed lines. -/
def runAll (fs : FS) : List String → FS × Nat × List String
  | [] => (fs, 0, [])
  | p :: ps =>
      let r := clean_notebook fs p
      let rest := runAll r.1 ps
      (rest.1, (if r.2.1 then 1 else 0) + rest.2.1, r.2.2 ++ rest.2.2)

/-- The per-path success flags of a run, in order (specification helper). -/
def runResults (fs : FS) : List String → List Bool
  | [] => []
  | p :: ps =>
      let r := clean_notebook fs p
      r.2.1 :: runResults r.1 ps

/-- A directory tree entry: a named file or a named directory with its own
listing. -/
inductive Entry where
  | file (name : String)
  | dir (name : String) (entries : List Entry)

/-- Name of a directory entry. -/
def entryName : Entry → String
  | .file n => n
  | .dir n _ => n

/-- Names of all entries of one directory level. -/
def entryNames : List Entry → List String
  | [] => []
  | e :: es => entryName e :: entryNames es

/-- The plain file names of one directory listing, in order (the `files` part
of an `os.walk` triple). -/
def fileNames : List Entry → List String
  | [] => []
  | .file n :: es => n :: fileNames es
  | .dir _ _ :: es => fileNames es

/-- Python `str.endswith` (line 43), on character lists. -/
def endsWithPy (s pat : String) : Bool :=
  startsWithChars pat.data.reverse s.data.reverse

/-- The `.ipynb` matches among one directory's own files (lines 42-44):
names ending in `.ipynb`, joined to the directory path. -/
def ownMatches (path : String) (es : List Entry) : List String :=
  ((fileNames es).filter (fun n => endsWithPy n ".ipynb")).map
    (fun n => path ++ "/" ++ n)

mutual

/-- The `.ipynb` matches contributed by the entries of one directory listing,
in listing order (`os.walk` top-down order). -/
def subMatches (path : String) : List Entry → List String
  | [] => []
  | e :: es => entryMatches path e ++ subMatches path es

/-- The `.ipynb` matches below one entry: none for a plain file, the full
depth-first walk (own files first) for a directory. -/
def entryMatches (path : String) : Entry → List String
  | .file _ => []
  | .dir n cs =>
      ownMatches (path ++ "/" ++ n) cs ++ subMatches (path ++ "/" ++ n) cs

end

/-- Discovery (lines 38-44): every `.ipynb` file path under `path`, in
`os.walk` top-down order. -/
def discoverFrom (path : String) (es : List Entry) : List String :=
  ownMatches path es ++ subMatches path es

mutual

/-- Specification helper, following the spec words: the (directory, name)
pairs of the files contributed by the entries of one directory listing, in
the same traversal order, regardless of extension. -/
def subFileEntries (path : String) : List Entry → List (String × String)
  | [] => []
  | e :: es => entryFileEntries path e ++ subFileEntries path es

/-- Specification helper: the (directory, name) file pairs below one entry. -/
def entryFileEntries (path : String) : Entry → List (String × String)
  | .file _ => []
  | .dir n cs =>
      (fileNames cs).map (fun n2 => (path ++ "/" ++ n, n2))
        ++ subFileEntries (path ++ "/" ++ n) cs

end

/-- Specification helper: all (directory, name) file pairs of the tree. -/
def allFileEntries (path : String) (es : List Entry) : List (String × String) :=
  (fileNames es).map (fun n => (path, n)) ++ subFileEntries path es

/-- Whether a name is free of path separators (true of any real directory
entry name). -/
def noSlash (s : String) : Bool := !(s.data.contains '/')

mutual

/-- Well-formedness of one directory level: separator-free names, no
duplicate name, well-formed subdirectories — properties every real
filesystem guarantees. -/
def wfLevel : List Entry → Bool
  | [] => true
  | e :: es =>
      noSlash (entryName e) && !((entryNames es).contains (entryName e))
        && wfSub e && wfLevel es

/-- Well-formedness of a single entry. -/
def wfSub : Entry → Bool
  | .file _ => true
  | .dir _ cs => wfLevel cs

end

/-- `main` (lines 35-56): discover from the working directory, print the
discovery summary, clean every file, and print the final tally.  Returns the
final filesystem, the success count, and every printed line in order. -/
def mainRun (tree : List Entry) (fs : FS) : FS × Nat × List String :=
  let files := discoverFrom "." tree
  let r := runAll fs files
  (r.1, r.2.1,
    ("Found " ++ toString files.length ++ " notebook files:")
      :: files.map (fun f => "  - " ++ f)
      ++ ["\nCleaning notebooks..."]
      ++ r.2.2
      ++ ["\nCompleted! Successfully cleaned " ++ toString r.2.1 ++ "/"
            ++ toString files.length ++ " notebooks."])

/-- A code cell with outputs, an execution count, and execution metadata,
used to exercise the transform theorems. -/
def cellCodeW : Json :=
  .obj [("cell_type", .str "code"), ("source", .str "print(1)"),
    ("outputs", .arr [.obj [("text", .str "hi")]]), ("execution_count", .num 3),
    ("metadata", .obj [("execution", .obj [("iopub", .str "busy")]),
      ("tags", .arr [])])]

/-- A markdown cell carrying an outputs-like field. -/
def cellMdW : Json :=
  .obj [("cell_type", .str "markdown"), ("source", .str "# title"),
    ("outputs", .arr [.num 7])]

/-- A two-cell notebook document. -/
def nbW : Json := .obj [("nbformat", .num 4), ("cells", .arr [cellCodeW, cellMdW])]

/-- The code cell of `nbW` after cleaning. -/
def cellCodeW2 : Json :=
  .obj [("cell_type", .str "code"), ("source", .str "print(1)"),
    ("outputs", .arr []), ("execution_count", .null),
    ("metadata", .obj [("execution", .obj []), ("tags", .arr [])])]

/-- The notebook `nbW` after cleaning. -/
def nbW2 : Json := .obj [("nbformat", .num 4), ("cells", .arr [cellCodeW2, cellMdW])]

/-- An empty, fully writable filesystem. -/
def fsEmptyW : FS := ⟨[], fun _ => true⟩

/-- A valid notebook text with no cells. -/
def aContentW : String := "\x7b\"cells\": []\x7d"

/-- A malformed notebook text. -/
def bContentW : String := "\x7bnot json"

/-- A valid notebook text with one markdown cell. -/
def cContentW : String :=
  "\x7b\"cells\": [\x7b\"cell_type\": \"markdown\", \"source\": \"hi\"\x7d]\x7d"

/-- A valid notebook text whose single cell lacks `cell_type`. -/
def mContentW : String := "\x7b\"cells\": [\x7b\"source\": \"x\"\x7d]\x7d"

/-- Scenario C filesystem: two valid files around one malformed file. -/
def fsC6 : FS :=
  ⟨[("./a.ipynb", aContentW), ("./b.ipynb", bContentW), ("./c.ipynb", cContentW)],
    fun _ => true⟩

/-- Scenario C working directory: three notebook files. -/
def treeC6 : List Entry := [.file "a.ipynb", .file "b.ipynb", .file "c.ipynb"]

/-- Filesystem with one notebook whose cell lacks `cell_type`. -/
def fsC10W : FS := ⟨[("./m.ipynb", mContentW)], fun _ => true⟩

/-- Filesystem with one empty valid notebook. -/
def fsW9 : FS := ⟨[("./a.ipynb", aContentW)], fun _ => true⟩

/-- A small directory tree with a nested notebook, exercising discovery. -/
def treeC8 : List Entry :=
  [.file "a.ipynb", .dir "sub" [.file "b.ipynb", .file "c.txt"]]

theorem plookup_setKey_self (l : List (String × Json)) (k : String) (v : Json) :
    plookup (setKey l k v) k = some v := by
  induction l with
  | nil => simp [setKey, plookup]
  | cons p rest ih =>
      obtain ⟨k2, v2⟩ := p
      by_cases h : k2 = k
      · simp [setKey, plookup, h]
      · simp [setKey, plookup, h, ih]

theorem plookup_setKey_ne (l : List (String × Json)) (k k2 : String) (v : Json)
    (h : k2 ≠ k) : plookup (setKey l k v) k2 = plookup l k2 := by
  have hne : k ≠ k2 := fun hk => h hk.symm
  induction l with
  | nil => simp [setKey, plookup, hne]
  | cons p rest ih =>
      obtain ⟨k3, v3⟩ := p
      by_cases h3 : k3 = k
      · subst h3
        simp [setKey, plookup, hne]
      · by_cases h4 : k3 = k2 <;> simp [setKey, plookup, h3, h4, h, ih]

theorem setKey_setKey (l : List (String × Json)) (k : String) (v w : Json) :
    setKey (setKey l k v) k w = setKey l k w := by
  induction l with
  | nil => simp [setKey]
  | cons p rest ih =>
      obtain ⟨k2, v2⟩ := p
      by_cases h : k2 = k <;> simp [setKey, h, ih]

theorem isSome_plookup_setKey (l : List (String × Json)) (k k2 : String)
    (v : Json) (hk : (plookup l k).isSome) :
    (plookup (setKey l k v) k2).isSome = (plookup l k2).isSome := by
  by_cases h : k2 = k
  · subst h
    simp [plookup_setKey_self, hk]
  · simp [plookup_setKey_ne l k k2 v h]

theorem setKey_eq_of_plookup (l : List (String × Json)) (k : String) (v : Json)
    (h : plookup l k = some v) : setKey l k v = l := by
  induction l with
  | nil => simp [plookup] at h
  | cons p rest ih =>
      obtain ⟨k2, v2⟩ := p
      by_cases hk : k2 = k
      · subst hk
        simp [plookup] at h
        simp [setKey, h]
      · simp [plookup, hk] at h
        simp [setKey, hk, ih h]

theorem any_beq_eq_isSome (l : List (String × Json)) (k : String) :
    (l.any fun p => p.1 == k) = (plookup l k).isSome := by
  induction l with
  | nil => simp [plookup]
  | cons p rest ih =>
      obtain ⟨k2, v2⟩ := p
      by_cases h : k2 = k <;> simp [plookup, h, ih]

theorem isSome_clearOutputs (f : List (String × Json)) (k : String) :
    (plookup (clearOutputs f) k).isSome = (plookup f k).isSome := by
  unfold clearOutputs
  split
  · exact isSome_plookup_setKey _ _ _ _ (by assumption)
  · rfl

theorem isSome_clearCount (f : List (String × Json)) (k : String) :
    (plookup (clearCount f) k).isSome = (plookup f k).isSome := by
  unfold clearCount
  split
  · exact isSome_plookup_setKey _ _ _ _ (by assumption)
  · rfl

theorem clearOutputs_ne (f : List (String × Json)) (k : String)
    (h : k ≠ "outputs") : plookup (clearOutputs f) k = plookup f k := by
  unfold clearOutputs
  split
  · exact plookup_setKey_ne _ _ _ _ h
  · rfl

theorem clearCount_ne (f : List (String × Json)) (k : String)
    (h : k ≠ "execution_count") : plookup (clearCount f) k = plookup f k := by
  unfold clearCount
  split
  · exact plookup_setKey_ne _ _ _ _ h
  · rfl

theorem clearOutputs_eff (f : List (String × Json))
    (h : (plookup f "outputs").isSome) :
    plookup (clearOutputs f) "outputs" = some (.arr []) := by
  unfold clearOutputs
  rw [if_pos h]
  exact plookup_setKey_self _ _ _

theorem clearCount_eff (f : List (String × Json))
    (h : (plookup f "execution_count").isSome) :
    plookup (clearCount f) "execution_count" = some .null := by
  unfold clearCount
  rw [if_pos h]
  exact plookup_setKey_self _ _ _

theorem pyContains_obj (l : List (String × Json)) (k : String) :
    pyContains (.obj l) k = .ok (plookup l k).isSome := by
  simp [pyContains, any_beq_eq_isSome]

theorem clearExecMeta_cases (f g : List (String × Json))
    (h : clearExecMeta f = .ok g) :
    (g = f ∧ ∀ mdf, plookup f "metadata" = some (.obj mdf) →
        (plookup mdf "execution").isSome = false) ∨
    (∃ mdf, plookup f "metadata" = some (.obj mdf) ∧
        (plookup mdf "execution").isSome = true ∧
        g = setKey f "metadata" (.obj (setKey mdf "execution" (.obj [])))) := by
  unfold clearExecMeta at h
  cases hmd : plookup f "metadata" with
  | none =>
      simp only [hmd] at h
      injection h with h
      exact .inl ⟨h.symm, fun mdf hmdf => by simp [hmd] at hmdf⟩
  | some md =>
      simp only [hmd] at h
      cases md with
      | null => simp [pyContains] at h
      | bool b => simp [pyContains] at h
      | num n => simp [pyContains] at h
      | str s =>
          cases hb : hasSubstring "execution".data s.data with
          | true => simp [pyContains, hb, pySetItem] at h
          | false =>
              simp only [pyContains, hb] at h
              injection h with h
              exact .inl ⟨h.symm, fun mdf hmdf => by simp [hmd] at hmdf⟩
      | arr elts =>
          cases hb : elts.any
              (fun e => match e with | .str s => s == "execution" | _ => false) with
          | true => simp [pyContains, hb, pySetItem] at h
          | false =>
              simp only [pyContains, hb] at h
              injection h with h
              exact .inl ⟨h.symm, fun mdf hmdf => by simp [hmd] at hmdf⟩
      | obj mdf =>
          cases hex : (plookup mdf "execution").isSome with
          | false =>
              simp only [pyContains_obj, hex] at h
              injection h with h
              refine .inl ⟨h.symm, fun mdf2 hmdf2 => ?_⟩
              injection hmdf2 with hmdf2
              injection hmdf2 with hmdf2
              rw [← hmdf2]
              exact hex
          | true =>
              simp only [pyContains_obj, hex, pySetItem] at h
              injection h with h
              exact .inr ⟨mdf, rfl, hex, h.symm⟩

theorem clearExecMeta_isSome (f g : List (String × Json))
    (h : clearExecMeta f = .ok g) (k : String) :
    (plookup g k).isSome = (plookup f k).isSome := by
  rcases clearExecMeta_cases f g h with ⟨hg, _⟩ | ⟨mdf, hmd, hex, hg⟩
  · rw [hg]
  · rw [hg]
    exact isSome_plookup_setKey _ _ _ _ (by rw [hmd]; rfl)

theorem clearExecMeta_ne (f g : List (String × Json))
    (h : clearExecMeta f = .ok g) (k : String) (hk : k ≠ "metadata") :
    plookup g k = plookup f k := by
  rcases clearExecMeta_cases f g h with ⟨hg, _⟩ | ⟨mdf, hmd, hex, hg⟩
  · rw [hg]
  · rw [hg]
    exact plookup_setKey_ne _ _ _ _ hk

theorem clearExecMeta_meta (f g : List (String × Json))
    (h : clearExecMeta f = .ok g) (md : Json)
    (hmd : plookup f "metadata" = some md) :
    ∃ md2, plookup g "metadata" = some md2 ∧
      (∀ k, k ≠ "execution" → getKey md2 k = getKey md k) ∧
      (∀ k, hasKey md2 k = hasKey md k) ∧
      (hasKey md "execution" = true → getKey md2 "execution" = some (.obj [])) := by
  rcases clearExecMeta_cases f g h with ⟨hg, hno⟩ | ⟨mdf, hmd2, hex, hg⟩
  · subst hg
    refine ⟨md, hmd, fun k _ => rfl, fun k => rfl, fun hk => ?_⟩
    exfalso
    cases md with
    | obj mdf =>
        have := hno mdf hmd
        simp [hasKey, getKey, this] at hk
    | null => simp [hasKey, getKey] at hk
    | bool b => simp [hasKey, getKey] at hk
    | num n => simp [hasKey, getKey] at hk
    | str s => simp [hasKey, getKey] at hk
    | arr elts => simp [hasKey, getKey] at hk
  · rw [hmd] at hmd2
    injection hmd2 with hmd2
    subst hmd2
    refine ⟨.obj (setKey mdf "execution" (.obj [])), ?_, ?_, ?_, ?_⟩
    · rw [hg]
      exact plookup_setKey_self _ _ _
    · intro k hk
      exact plookup_setKey_ne _ _ _ _ hk
    · intro k
      simp only [hasKey, getKey]
      exact isSome_plookup_setKey _ _ _ _ hex
    · intro _
      exact plookup_setKey_self _ _ _

theorem clearExecMeta_idem (f g : List (String × Json))
    (h : clearExecMeta f = .ok g) : clearExecMeta g = .ok g := by
  rcases clearExecMeta_cases f g h with ⟨hg, _⟩ | ⟨mdf, hmd, hex, hg⟩
  · subst hg
    exact h
  · subst hg
    simp [clearExecMeta, plookup_setKey_self, pyContains_obj, pySetItem,
      setKey_setKey]

theorem isCodeType_true (ct : Json) (h : isCodeType ct = true) :
    ct = .str "code" := by
  cases ct with
  | str s =>
      simp only [isCodeType, beq_iff_eq] at h
      rw [h]
  | null => cases h
  | bool b => cases h
  | num n => cases h
  | arr elts => cases h
  | obj fields => cases h

theorem isCodeType_false (ct : Json) (h : ct ≠ .str "code") :
    isCodeType ct = false := by
  cases ct with
  | str s =>
      simp only [isCodeType, beq_eq_false_iff_ne, ne_eq]
      intro hs
      exact h (by rw [hs])
  | null => rfl
  | bool b => rfl
  | num n => rfl
  | arr elts => rfl
  | obj fields => rfl

theorem getKey_eq_some (c : Json) (k : String) (v : Json)
    (h : getKey c k = some v) :
    ∃ fields, c = .obj fields ∧ plookup fields k = some v := by
  cases c with
  | obj fields => exact ⟨fields, rfl, h⟩
  | null => cases h
  | bool b => cases h
  | num n => cases h
  | str s => cases h
  | arr elts => cases h

theorem cleanCell_code_spec (fields : List (String × Json)) (ct c2 : Json)
    (hct : plookup fields "cell_type" = some ct)
    (hcode : isCodeType ct = true)
    (hok : cleanCell (.obj fields) = .ok c2) :
    ∃ g, c2 = .obj g ∧
      clearExecMeta (clearCount (clearOutputs fields)) = .ok g := by
  unfold cleanCell at hok
  simp only [hct, hcode, if_true] at hok
  cases hcm : clearExecMeta (clearCount (clearOutputs fields)) with
  | error e => rw [hcm] at hok; cases hok
  | ok g =>
      rw [hcm] at hok
      injection hok with hok
      exact ⟨g, hok.symm, rfl⟩

theorem cleanCell_not_code (fields : List (String × Json)) (ct c2 : Json)
    (hct : plookup fields "cell_type" = some ct)
    (hcode : isCodeType ct = false)
    (hok : cleanCell (.obj fields) = .ok c2) : c2 = .obj fields := by
  unfold cleanCell at hok
  simp only [hct, hcode, if_false] at hok
  injection hok with hok
  exact hok.symm

theorem pipeline_isSome (f g : List (String × Json))
    (h : clearExecMeta (clearCount (clearOutputs f)) = .ok g) (k : String) :
    (plookup g k).isSome = (plookup f k).isSome := by
  rw [clearExecMeta_isSome _ _ h k, isSome_clearCount, isSome_clearOutputs]

theorem pipeline_ne (f g : List (String × Json))
    (h : clearExecMeta (clearCount (clearOutputs f)) = .ok g) (k : String)
    (h1 : k ≠ "outputs") (h2 : k ≠ "execution_count") (h3 : k ≠ "metadata") :
    plookup g k = plookup f k := by
  rw [clearExecMeta_ne _ _ h k h3, clearCount_ne _ _ h2, clearOutputs_ne _ _ h1]

theorem pipeline_outputs (f g : List (String × Json))
    (h : clearExecMeta (clearCount (clearOutputs f)) = .ok g)
    (ho : (plookup f "outputs").isSome) :
    plookup g "outputs" = some (.arr []) := by
  rw [clearExecMeta_ne _ _ h _ (by decide), clearCount_ne _ _ (by decide)]
  exact clearOutputs_eff f ho

theorem pipeline_count (f g : List (String × Json))
    (h : clearExecMeta (clearCount (clearOutputs f)) = .ok g)
    (ho : (plookup f "execution_count").isSome) :
    plookup g "execution_count" = some .null := by
  rw [clearExecMeta_ne _ _ h _ (by decide)]
  exact clearCount_eff _ (by rw [isSome_clearOutputs]; exact ho)

theorem pipeline_meta (f g : List (String × Json))
    (h : clearExecMeta (clearCount (clearOutputs f)) = .ok g) (md : Json)
    (hmd : plookup f "metadata" = some md) :
    ∃ md2, plookup g "metadata" = some md2 ∧
      (∀ k, k ≠ "execution" → getKey md2 k = getKey md k) ∧
      (∀ k, hasKey md2 k = hasKey md k) ∧
      (hasKey md "execution" = true → getKey md2 "execution" = some (.obj [])) := by
  refine clearExecMeta_meta _ _ h md ?_
  rw [clearCount_ne _ _ (by decide), clearOutputs_ne _ _ (by decide)]
  exact hmd

theorem cleanCell_ok_shape (c c2 : Json) (h : cleanCell c = .ok c2) :
    ∃ fields ct, c = .obj fields ∧ plookup fields "cell_type" = some ct := by
  cases c with
  | obj fields =>
      unfold cleanCell at h
      cases hct : plookup fields "cell_type" with
      | none => simp only [hct] at h; cases h
      | some ct => exact ⟨fields, ct, rfl, hct⟩
  | null => cases h
  | bool b => cases h
  | num n => cases h
  | str s => cases h
  | arr elts => cases h

theorem cleanCell_idem (c c2 : Json) (h : cleanCell c = .ok c2) :
    cleanCell c2 = .ok c2 := by
  obtain ⟨fields, ct, hc, hct⟩ := cleanCell_ok_shape c c2 h
  subst hc
  cases hcode : isCodeType ct with
  | false =>
      have hc2 := cleanCell_not_code fields ct c2 hct hcode h
      subst hc2
      exact h
  | true =>
      obtain ⟨g, hc2, hcm⟩ := cleanCell_code_spec fields ct c2 hct hcode h
      subst hc2
      have hctg : plookup g "cell_type" = some ct := by
        rw [pipeline_ne _ _ hcm _ (by decide) (by decide) (by decide)]
        exact hct
      have h1 : clearOutputs g = g := by
        by_cases ho : (plookup fields "outputs").isSome
        · have heff := pipeline_outputs _ _ hcm ho
          simp [clearOutputs, heff, setKey_eq_of_plookup _ _ _ heff]
        · have hnone : (plookup g "outputs").isSome = false := by
            rw [pipeline_isSome _ _ hcm]
            simpa using ho
          simp [clearOutputs, hnone]
      have h2 : clearCount g = g := by
        by_cases ho : (plookup fields "execution_count").isSome
        · have heff := pipeline_count _ _ hcm ho
          simp [clearCount, heff, setKey_eq_of_plookup _ _ _ heff]
        · have hnone : (plookup g "execution_count").isSome = false := by
            rw [pipeline_isSome _ _ hcm]
            simpa using ho
          simp [clearCount, hnone]
      have h3 : clearExecMeta g = .ok g := clearExecMeta_idem _ _ hcm
      simp [cleanCell, hctg, hcode, h1, h2, h3]

theorem mapCells_length (cs cs2 : List Json) (h : mapCells cs = .ok cs2) :
    cs2.length = cs.length := by
  induction cs generalizing cs2 with
  | nil =>
      simp only [mapCells, Except.ok.injEq] at h
      subst h
      rfl
  | cons c rest ih =>
      simp only [mapCells] at h
      cases hc : cleanCell c with
      | error e => simp only [hc] at h; cases h
      | ok c2 =>
          simp only [hc] at h
          cases hr : mapCells rest with
          | error e => simp only [hr] at h; cases h
          | ok rest2 =>
              simp only [hr, Except.ok.injEq] at h
              subst h
              simp [ih rest2 hr]

theorem mapCells_get (cs cs2 : List Json) (h : mapCells cs = .ok cs2) :
    ∀ i (hi : i < cs.length) (hi2 : i < cs2.length),
      cleanCell (cs.get ⟨i, hi⟩) = .ok (cs2.get ⟨i, hi2⟩) := by
  induction cs generalizing cs2 with
  | nil => intro i hi hi2; exact absurd hi (by simp)
  | cons c rest ih =>
      simp only [mapCells] at h
      cases hc : cleanCell c with
      | error e => simp only [hc] at h; cases h
      | ok c2 =>
          simp only [hc] at h
          cases hr : mapCells rest with
          | error e => simp only [hr] at h; cases h
          | ok rest2 =>
              simp only [hr, Except.ok.injEq] at h
              subst h
              intro i hi hi2
              cases i with
              | zero => exact hc
              | succ n =>
                  exact ih rest2 hr n (Nat.lt_of_succ_lt_succ hi)
                    (Nat.lt_of_succ_lt_succ hi2)

theorem mapCells_idem (cs cs2 : List Json) (h : mapCells cs = .ok cs2) :
    mapCells cs2 = .ok cs2 := by
  induction cs generalizing cs2 with
  | nil =>
      simp only [mapCells, Except.ok.injEq] at h
      subst h
      rfl
  | cons c rest ih =>
      simp only [mapCells] at h
      cases hc : cleanCell c with
      | error e => simp only [hc] at h; cases h
      | ok c2 =>
          simp only [hc] at h
          cases hr : mapCells rest with
          | error e => simp only [hr] at h; cases h
          | ok rest2 =>
              simp only [hr, Except.ok.injEq] at h
              subst h
              simp [mapCells, cleanCell_idem c c2 hc, ih rest2 hr]

theorem cleanCellsVal_idem (v v2 : Json) (h : cleanCellsVal v = .ok v2) :
    cleanCellsVal v2 = .ok v2 := by
  cases v with
  | arr cells =>
      simp only [cleanCellsVal] at h
      cases hm : mapCells cells with
      | error e => simp only [hm] at h; cases h
      | ok cells2 =>
          simp only [hm, Except.ok.injEq] at h
          subst h
          simp [cleanCellsVal, mapCells_idem cells cells2 hm]
  | str s =>
      by_cases hs : s = ""
      · subst hs
        simp only [cleanCellsVal, if_pos, Except.ok.injEq] at h
        subst h
        rfl
      · simp only [cleanCellsVal, if_neg hs] at h
        cases h
  | obj fields =>
      cases fields with
      | nil =>
          simp only [cleanCellsVal, Except.ok.injEq] at h
          subst h
          rfl
      | cons p rest => simp only [cleanCellsVal] at h; cases h
  | null => cases h
  | bool b => cases h
  | num n => cases h

theorem transformNotebook_spec (nb nb2 : Json)
    (h : transformNotebook nb = .ok nb2) :
    ∃ fields cellsVal cellsVal2, nb = .obj fields ∧
      plookup fields "cells" = some cellsVal ∧
      cleanCellsVal cellsVal = .ok cellsVal2 ∧
      nb2 = .obj (setKey fields "cells" cellsVal2) := by
  cases nb with
  | obj fields =>
      simp only [transformNotebook] at h
      cases hc : plookup fields "cells" with
      | none => simp only [hc] at h; cases h
      | some cellsVal =>
          simp only [hc] at h
          cases hv : cleanCellsVal cellsVal with
          | error e => simp only [hv] at h; cases h
          | ok cellsVal2 =>
              simp only [hv, Except.ok.injEq] at h
              exact ⟨fields, cellsVal, cellsVal2, rfl, hc, hv, h.symm⟩
  | null => cases h
  | bool b => cases h
  | num n => cases h
  | str s => cases h
  | arr elts => cases h

theorem transform_cells_rel (nb nb2 : Json) (cells cells2 : List Json)
    (h : transformNotebook nb = .ok nb2)
    (hc : getKey nb "cells" = some (.arr cells))
    (hc2 : getKey nb2 "cells" = some (.arr cells2)) :
    mapCells cells = .ok cells2 := by
  obtain ⟨fields, cv, cv2, hnb, hcv, hval, hnb2⟩ := transformNotebook_spec nb nb2 h
  subst hnb
  subst hnb2
  simp only [getKey] at hc hc2
  rw [hcv] at hc
  injection hc with hc
  subst hc
  rw [plookup_setKey_self] at hc2
  injection hc2 with hc2
  simp only [cleanCellsVal] at hval
  cases hm : mapCells cells with
  | error e => simp only [hm] at hval; cases hval
  | ok cells2m =>
      simp only [hm, Except.ok.injEq] at hval
      have h3 := hval.trans hc2
      injection h3 with h3
      subst h3
      rfl

/-- C1: after a successful transform, every cell of the cleaned document whose
original had `cell_type == "code"` has `outputs = []` when the original had an
`outputs` field, `execution_count = null` when the original had one, and, when
the original metadata mapping contained an `execution` key, that key is still
present and now bound to an empty mapping. -/
theorem C1_clean_completeness (nb nb2 : Json) (cells cells2 : List Json)
    (h : transformNotebook nb = .ok nb2)
    (hc : getKey nb "cells" = some (.arr cells))
    (hc2 : getKey nb2 "cells" = some (.arr cells2))
    (i : Nat) (hi : i < cells.length) (hi2 : i < cells2.length)
    (hcode : getKey (cells.get ⟨i, hi⟩) "cell_type" = some (.str "code")) :
    (hasKey (cells.get ⟨i, hi⟩) "outputs" = true →
       getKey (cells2.get ⟨i, hi2⟩) "outputs" = some (.arr [])) ∧
    (hasKey (cells.get ⟨i, hi⟩) "execution_count" = true →
       getKey (cells2.get ⟨i, hi2⟩) "execution_count" = some .null) ∧
    (∀ md, getKey (cells.get ⟨i, hi⟩) "metadata" = some md →
       hasKey md "execution" = true →
       ∃ md2, getKey (cells2.get ⟨i, hi2⟩) "metadata" = some md2 ∧
         hasKey md2 "execution" = true ∧
         getKey md2 "execution" = some (.obj [])) := by
  have hmc := transform_cells_rel nb nb2 cells cells2 h hc hc2
  have hcell := mapCells_get cells cells2 hmc i hi hi2
  obtain ⟨cf, hcf, hpct⟩ := getKey_eq_some _ _ _ hcode
  rw [hcf] at hcell
  obtain ⟨g, hg, hcm⟩ := cleanCell_code_spec cf (.str "code") _ hpct rfl hcell
  refine ⟨?_, ?_, ?_⟩
  · intro ho
    rw [hcf] at ho
    rw [hg]
    simp only [getKey]
    exact pipeline_outputs _ _ hcm (by simpa [hasKey, getKey] using ho)
  · intro ho
    rw [hcf] at ho
    rw [hg]
    simp only [getKey]
    exact pipeline_count _ _ hcm (by simpa [hasKey, getKey] using ho)
  · intro md hmd hex
    rw [hcf] at hmd
    simp only [getKey] at hmd
    obtain ⟨md2, hmd2, _, hkeys, heff⟩ := pipeline_meta _ _ hcm md hmd
    refine ⟨md2, ?_, ?_, heff hex⟩
    · rw [hg]
      simp only [getKey]
      exact hmd2
    · rw [hkeys "execution"]
      exact hex

/-- C2: a successful transform leaves every cell whose `cell_type` is not the
string `"code"` exactly as it was; only code cells are mutated. -/
theorem C2_selectivity (nb nb2 : Json) (cells cells2 : List Json)
    (h : transformNotebook nb = .ok nb2)
    (hc : getKey nb "cells" = some (.arr cells))
    (hc2 : getKey nb2 "cells" = some (.arr cells2))
    (i : Nat) (hi : i < cells.length) (hi2 : i < cells2.length)
    (ct : Json)
    (hct : getKey (cells.get ⟨i, hi⟩) "cell_type" = some ct)
    (hnc : ct ≠ .str "code") :
    cells2.get ⟨i, hi2⟩ = cells.get ⟨i, hi⟩ := by
  have hmc := transform_cells_rel nb nb2 cells cells2 h hc hc2
  have hcell := mapCells_get cells cells2 hmc i hi hi2
  obtain ⟨cf, hcf, hpct⟩ := getKey_eq_some _ _ _ hct
  rw [hcf] at hcell
  have hres := cleanCell_not_code cf ct _ hpct (isCodeType_false ct hnc) hcell
  rw [hres, hcf]

/-- C3: the transform only ever touches `outputs`, `execution_count`, and the
`execution` entry of `metadata` of a code cell; it never invents a field
(key sets of the cell and of its metadata are preserved), and document-level
fields outside `cells` are unchanged. -/
theorem C3_field_preservation (nb nb2 : Json) (cells cells2 : List Json)
    (h : transformNotebook nb = .ok nb2)
    (hc : getKey nb "cells" = some (.arr cells))
    (hc2 : getKey nb2 "cells" = some (.arr cells2)) :
    (∀ k, k ≠ "cells" → getKey nb2 k = getKey nb k) ∧
    (∀ k, hasKey nb2 k = hasKey nb k) ∧
    (∀ i (hi : i < cells.length) (hi2 : i < cells2.length),
      getKey (cells.get ⟨i, hi⟩) "cell_type" = some (.str "code") →
      (∀ k, k ≠ "outputs" → k ≠ "execution_count" → k ≠ "metadata" →
         getKey (cells2.get ⟨i, hi2⟩) k = getKey (cells.get ⟨i, hi⟩) k) ∧
      (∀ k, hasKey (cells2.get ⟨i, hi2⟩) k = hasKey (cells.get ⟨i, hi⟩) k) ∧
      (∀ md md2, getKey (cells.get ⟨i, hi⟩) "metadata" = some md →
         getKey (cells2.get ⟨i, hi2⟩) "metadata" = some md2 →
         (∀ k, k ≠ "execution" → getKey md2 k = getKey md k) ∧
         (∀ k, hasKey md2 k = hasKey md k))) := by
  obtain ⟨fields, cv, cv2, hnb, hcv, hval, hnb2⟩ := transformNotebook_spec nb nb2 h
  have hmc := transform_cells_rel nb nb2 cells cells2 h hc hc2
  refine ⟨?_, ?_, ?_⟩
  · intro k hk
    rw [hnb, hnb2]
    simp only [getKey]
    exact plookup_setKey_ne _ _ _ _ hk
  · intro k
    rw [hnb, hnb2]
    simp only [hasKey, getKey]
    exact isSome_plookup_setKey _ _ _ _ (by rw [hcv]; rfl)
  · intro i hi hi2 hcode
    have hcell := mapCells_get cells cells2 hmc i hi hi2
    obtain ⟨cf, hcf, hpct⟩ := getKey_eq_some _ _ _ hcode
    rw [hcf] at hcell
    obtain ⟨g, hg, hcm⟩ := cleanCell_code_spec cf (.str "code") _ hpct rfl hcell
    refine ⟨?_, ?_, ?_⟩
    · intro k h1 h2 h3
      rw [hg, hcf]
      simp only [getKey]
      exact pipeline_ne _ _ hcm k h1 h2 h3
    · intro k
      rw [hg, hcf]
      simp only [hasKey, getKey]
      exact pipeline_isSome _ _ hcm k
    · intro md md2 hmd hmd2
      rw [hcf] at hmd
      rw [hg] at hmd2
      simp only [getKey] at hmd hmd2
      obtain ⟨md2b, hmd2b, hne2, hkeys, _⟩ := pipeline_meta _ _ hcm md hmd
      rw [hmd2b] at hmd2
      injection hmd2 with hmd2
      subst hmd2
      exact ⟨hne2, hkeys⟩

/-- C4: the transform is idempotent — running it on its own successful output
reproduces that output exactly, so applying it twice equals applying it once. -/
theorem C4_transform_idempotent (nb : Json) :
    Except.bind (transformNotebook nb) transformNotebook = transformNotebook nb := by
  cases h : transformNotebook nb with
  | error e => rfl
  | ok nb2 =>
      show transformNotebook nb2 = Except.ok nb2
      obtain ⟨fields, cv, cv2, hnb, hcv, hval, hnb2⟩ := transformNotebook_spec nb nb2 h
      subst hnb2
      simp [transformNotebook, plookup_setKey_self,
        cleanCellsVal_idem cv cv2 hval, setKey_setKey]

theorem fsLookup_fsSet_self (l : List (String × String)) (p c : String) :
    fsLookup (fsSet l p c) p = some c := by
  induction l with
  | nil => simp [fsSet, fsLookup]
  | cons q rest ih =>
      obtain ⟨p2, c2⟩ := q
      by_cases h : p2 = p
      · simp [fsSet, fsLookup, h]
      · simp [fsSet, fsLookup, h, ih]

theorem clean_notebook_error (fs : FS) (path e : String)
    (h : cleanPipeline fs path = .error e) :
    clean_notebook fs path =
      (fs, false, ["Error processing " ++ path ++ ": " ++ e]) := by
  unfold clean_notebook
  rw [h]

theorem clean_notebook_lines (fs : FS) (path : String) :
    ((clean_notebook fs path).2.2).length = 1 := by
  unfold clean_notebook
  cases cleanPipeline fs path <;> rfl

theorem runAll_lines (fs : FS) (paths : List String) :
    ((runAll fs paths).2.2).length = paths.length := by
  induction paths generalizing fs with
  | nil => rfl
  | cons p ps ih =>
      show ((clean_notebook fs p).2.2 ++ (runAll (clean_notebook fs p).1 ps).2.2).length
          = (p :: ps).length
      rw [List.length_append, clean_notebook_lines, ih]
      simp [Nat.add_comm]

theorem runAll_count_le (fs : FS) (paths : List String) :
    (runAll fs paths).2.1 ≤ paths.length := by
  induction paths generalizing fs with
  | nil => exact Nat.le_refl 0
  | cons p ps ih =>
      have h2 := ih (clean_notebook fs p).1
      show (if (clean_notebook fs p).2.1 then 1 else 0)
          + (runAll (clean_notebook fs p).1 ps).2.1 ≤ (p :: ps).length
      simp only [List.length_cons]
      cases (clean_notebook fs p).2.1 <;> simp <;> omega

theorem runAll_count_results (fs : FS) (paths : List String) :
    (runAll fs paths).2.1 = (runResults fs paths).count true := by
  induction paths generalizing fs with
  | nil => rfl
  | cons p ps ih =>
      show (if (clean_notebook fs p).2.1 then 1 else 0)
          + (runAll (clean_notebook fs p).1 ps).2.1
        = ((clean_notebook fs p).2.1 :: runResults (clean_notebook fs p).1 ps).count true
      rw [List.count_cons, ih (clean_notebook fs p).1]
      cases (clean_notebook fs p).2.1 <;> simp [Nat.add_comm]

theorem mainRun_last (tree : List Entry) (fs : FS) :
    ((mainRun tree fs).2.2).getLast? =
      some ("\nCompleted! Successfully cleaned " ++ toString (mainRun tree fs).2.1
        ++ "/" ++ toString (discoverFrom "." tree).length ++ " notebooks.") := by
  simp only [mainRun]
  exact List.getLast?_concat _

theorem load_error_spec (fs : FS) (path content e : String)
    (hc : fsLookup fs.files path = some content)
    (he : pyLoads content = .error e) :
    clean_notebook fs path =
      (fs, false, ["Error processing " ++ path ++ ": " ++ e]) := by
  apply clean_notebook_error
  unfold cleanPipeline fsRead
  simp only [hc, he]

theorem transform_error_spec (fs : FS) (path content : String) (nb : Json)
    (e : String)
    (hc : fsLookup fs.files path = some content)
    (hl : pyLoads content = .ok nb)
    (ht : transformNotebook nb = .error e) :
    clean_notebook fs path =
      (fs, false, ["Error processing " ++ path ++ ": " ++ e]) := by
  apply clean_notebook_error
  unfold cleanPipeline fsRead
  simp only [hc, hl, ht]

theorem mapCells_error (cells : List Json) (i : Nat) (hi : i < cells.length)
    (e : String) (h : cleanCell (cells.get ⟨i, hi⟩) = .error e) :
    ∃ e2, mapCells cells = .error e2 := by
  induction cells generalizing i with
  | nil => exact absurd hi (by simp)
  | cons c cs ih =>
      cases hc : cleanCell c with
      | error e2 => exact ⟨e2, by simp [mapCells, hc]⟩
      | ok c2 =>
          cases i with
          | zero => exact absurd (hc.symm.trans h) (by simp)
          | succ n =>
              obtain ⟨e2, h2⟩ := ih n (Nat.lt_of_succ_lt_succ hi) h
              exact ⟨e2, by simp [mapCells, hc, h2]⟩

/-- C5: an exception anywhere in the load-transform-persist pipeline of a
path is caught within that path's processing: the cleaner returns the
filesystem untouched, `false`, and one error line naming the path and the
message; every path still produces exactly one report line, and every run
ends by printing the final tally. -/
theorem C5_error_isolation :
    (∀ fs path e, cleanPipeline fs path = .error e →
       clean_notebook fs path =
         (fs, false, ["Error processing " ++ path ++ ": " ++ e])) ∧
    (∀ fs paths, ((runAll fs paths).2.2).length = paths.length) ∧
    (∀ tree fs, ((mainRun tree fs).2.2).getLast? =
       some ("\nCompleted! Successfully cleaned " ++ toString (mainRun tree fs).2.1
         ++ "/" ++ toString (discoverFrom "." tree).length ++ " notebooks.")) :=
  ⟨clean_notebook_error, runAll_lines, mainRun_last⟩

/-- Witness for C5 at a concrete missing file: the pipeline raises, the
cleaner reports and returns false with the filesystem untouched. -/
theorem C5_error_isolation_witness :
    clean_notebook fsEmptyW "./a.ipynb" =
      (fsEmptyW, false,
        ["Error processing ./a.ipynb: FileNotFoundError: ./a.ipynb"]) :=
  C5_error_isolation.1 fsEmptyW "./a.ipynb" "FileNotFoundError: ./a.ipynb" rfl

/-- C6: a file whose text does not parse is reported with its path, counted
as a failure, and its on-disk content is untouched; in the concrete
three-file scenario with one malformed file the run reports 2/3. -/
theorem C6_malformed_file :
    (∀ fs path content e, fsLookup fs.files path = some content →
       pyLoads content = .error e →
       clean_notebook fs path =
         (fs, false, ["Error processing " ++ path ++ ": " ++ e])) ∧
    (mainRun treeC6 fsC6).2.1 = 2 ∧
    ((mainRun treeC6 fsC6).2.2).getLast? =
       some "\nCompleted! Successfully cleaned 2/3 notebooks." ∧
    (∃ e, (runAll fsC6 (discoverFrom "." treeC6)).2.2 =
       ["Cleaned: ./a.ipynb", "Error processing ./b.ipynb: " ++ e,
        "Cleaned: ./c.ipynb"]) ∧
    fsLookup (mainRun treeC6 fsC6).1.files "./b.ipynb" = some bContentW :=
  ⟨load_error_spec, by decide, by decide,
    ⟨"Expecting property name", by decide⟩, by decide⟩

/-- Witness for C6's general clause at the malformed file of the scenario. -/
theorem C6_malformed_file_witness :
    clean_notebook fsC6 "./b.ipynb" =
      (fsC6, false,
        ["Error processing ./b.ipynb: Expecting property name"]) :=
  C6_malformed_file.1 fsC6 "./b.ipynb" bContentW "Expecting property name" rfl rfl

/-- C7: the number of discovered paths equals the number of per-file report
lines and the total of the final summary; the success count never exceeds it
and equals the number of paths on which the cleaner returned true. -/
theorem C7_count_consistency (tree : List Entry) (fs : FS) :
    ((runAll fs (discoverFrom "." tree)).2.2).length
        = (discoverFrom "." tree).length ∧
    (mainRun tree fs).2.1 ≤ (discoverFrom "." tree).length ∧
    (mainRun tree fs).2.1 = (runResults fs (discoverFrom "." tree)).count true ∧
    ((mainRun tree fs).2.2).getLast? =
       some ("\nCompleted! Successfully cleaned " ++ toString (mainRun tree fs).2.1
         ++ "/" ++ toString (discoverFrom "." tree).length ++ " notebooks.") :=
  ⟨runAll_lines fs (discoverFrom "." tree),
   runAll_count_le fs (discoverFrom "." tree),
   runAll_count_results fs (discoverFrom "." tree),
   mainRun_last tree fs⟩

/-- C9: once load and transform succeed, the persist step stores exactly the
`indent=2, ensure_ascii=False` serialization of the cleaned document at the
same path, replacing whatever was there; the concrete sample shows the
formatting (record field order, two-space indentation, literal non-ASCII). -/
theorem C9_persist_format :
    (∀ fs fs2 path content nb nb2,
       fsRead fs path = .ok content →
       pyLoads content = .ok nb →
       transformNotebook nb = .ok nb2 →
       cleanPipeline fs path = .ok fs2 →
       fsLookup fs2.files path = some (pyDumps nb2)) ∧
    pyDumps (.obj [("a", .arr [.num 1, .str "é"]), ("b", .null)]) =
      "\x7b\n  \"a\": [\n    1,\n    \"é\"\n  ],\n  \"b\": null\n\x7d" := by
  constructor
  · intro fs fs2 path content nb nb2 h1 h2 h3 h4
    unfold cleanPipeline at h4
    simp only [h1, h2, h3] at h4
    unfold fsWrite at h4
    by_cases hw : fs.writable path = true
    · simp only [hw, if_true] at h4
      injection h4 with h4
      subst h4
      exact fsLookup_fsSet_self _ _ _
    · simp [hw] at h4
  · decide

/-- Witness for C9 at a concrete one-file filesystem. -/
theorem C9_persist_format_witness :
    fsLookup (FS.mk (fsSet fsW9.files "./a.ipynb"
        (pyDumps (.obj [("cells", .arr [])]))) fsW9.writable).files "./a.ipynb"
      = some (pyDumps (.obj [("cells", .arr [])])) :=
  C9_persist_format.1 fsW9 _ "./a.ipynb" aContentW (.obj [("cells", .arr [])])
    (.obj [("cells", .arr [])]) rfl rfl rfl rfl

/-- C10: when load or transform raises, the write never happens — the
cleaner returns with the filesystem exactly as it was — and one cell whose
record lacks `cell_type` makes the whole file's transform raise, however
well-formed the other cells are. -/
theorem C10_no_partial_write :
    (∀ fs path content e, fsLookup fs.files path = some content →
       pyLoads content = .error e →
       clean_notebook fs path =
         (fs, false, ["Error processing " ++ path ++ ": " ++ e])) ∧
    (∀ fs path content nb e, fsLookup fs.files path = some content →
       pyLoads content = .ok nb →
       transformNotebook nb = .error e →
       clean_notebook fs path =
         (fs, false, ["Error processing " ++ path ++ ": " ++ e])) ∧
    (∀ cells i (hi : i < cells.length) e,
       cleanCell (cells.get ⟨i, hi⟩) = .error e →
       ∃ e2, mapCells cells = .error e2) ∧
    cleanCell (.obj [("source", .str "x")]) = .error "KeyError: cell_type" :=
  ⟨load_error_spec, transform_error_spec, mapCells_error, rfl⟩

/-- Witness for C10 at the notebook whose only cell lacks `cell_type`. -/
theorem C10_no_partial_write_witness :
    clean_notebook fsC10W "./m.ipynb" =
      (fsC10W, false,
        ["Error processing ./m.ipynb: KeyError: cell_type"]) :=
  C10_no_partial_write.2.1 fsC10W "./m.ipynb" mContentW
    (.obj [("cells", .arr [.obj [("source", .str "x")]])])
    "KeyError: cell_type" rfl rfl rfl

/-- Witness for C1 at the concrete two-cell notebook `nbW`. -/
theorem C1_clean_completeness_witness :
    (hasKey cellCodeW "outputs" = true →
       getKey cellCodeW2 "outputs" = some (.arr [])) ∧
    (hasKey cellCodeW "execution_count" = true →
       getKey cellCodeW2 "execution_count" = some .null) ∧
    (∀ md, getKey cellCodeW "metadata" = some md →
       hasKey md "execution" = true →
       ∃ md2, getKey cellCodeW2 "metadata" = some md2 ∧
         hasKey md2 "execution" = true ∧
         getKey md2 "execution" = some (.obj [])) :=
  C1_clean_completeness nbW nbW2 [cellCodeW, cellMdW] [cellCodeW2, cellMdW]
    rfl rfl rfl 0 (by decide) (by decide) rfl

/-- Witness for C2: the markdown cell of `nbW` is untouched. -/
theorem C2_selectivity_witness : cellMdW = cellMdW :=
  C2_selectivity nbW nbW2 [cellCodeW, cellMdW] [cellCodeW2, cellMdW]
    rfl rfl rfl 1 (by decide) (by decide) (.str "markdown") rfl (by simp)

/-- Witness for C3 at the concrete two-cell notebook `nbW`. -/
theorem C3_field_preservation_witness :
    (∀ k, k ≠ "cells" → getKey nbW2 k = getKey nbW k) ∧
    (∀ k, hasKey nbW2 k = hasKey nbW k) ∧
    (∀ i (hi : i < ([cellCodeW, cellMdW] : List Json).length)
       (hi2 : i < ([cellCodeW2, cellMdW] : List Json).length),
      getKey (([cellCodeW, cellMdW] : List Json).get ⟨i, hi⟩) "cell_type"
          = some (.str "code") →
      (∀ k, k ≠ "outputs" → k ≠ "execution_count" → k ≠ "metadata" →
         getKey (([cellCodeW2, cellMdW] : List Json).get ⟨i, hi2⟩) k
           = getKey (([cellCodeW, cellMdW] : List Json).get ⟨i, hi⟩) k) ∧
      (∀ k, hasKey (([cellCodeW2, cellMdW] : List Json).get ⟨i, hi2⟩) k
           = hasKey (([cellCodeW, cellMdW] : List Json).get ⟨i, hi⟩) k) ∧
      (∀ md md2,
         getKey (([cellCodeW, cellMdW] : List Json).get ⟨i, hi⟩) "metadata"
           = some md →
         getKey (([cellCodeW2, cellMdW] : List Json).get ⟨i, hi2⟩) "metadata"
           = some md2 →
         (∀ k, k ≠ "execution" → getKey md2 k = getKey md k) ∧
         (∀ k, hasKey md2 k = hasKey md k))) :=
  C3_field_preservation nbW nbW2 [cellCodeW, cellMdW] [cellCodeW2, cellMdW]
    rfl rfl rfl

theorem own_eq (path : String) (es : List Entry) :
    ownMatches path es
      = (((fileNames es).map (fun n => (path, n))).filter
          (fun pr => endsWithPy pr.2 ".ipynb")).map
            (fun pr => pr.1 ++ "/" ++ pr.2) := by
  unfold ownMatches
  rw [List.filter_map, List.map_map]
  rfl

mutual

theorem sub_eq (path : String) (es : List Entry) :
    subMatches path es
      = ((subFileEntries path es).filter
          (fun pr => endsWithPy pr.2 ".ipynb")).map
            (fun pr => pr.1 ++ "/" ++ pr.2) := by
  cases es with
  | nil => rfl
  | cons e es =>
      show entryMatches path e ++ subMatches path es = _
      rw [entry_eq path e, sub_eq path es]
      show _ = ((entryFileEntries path e ++ subFileEntries path es).filter _).map _
      rw [List.filter_append, List.map_append]

theorem entry_eq (path : String) (e : Entry) :
    entryMatches path e
      = ((entryFileEntries path e).filter
          (fun pr => endsWithPy pr.2 ".ipynb")).map
            (fun pr => pr.1 ++ "/" ++ pr.2) := by
  cases e with
  | file n => rfl
  | dir n cs =>
      show ownMatches (path ++ "/" ++ n) cs ++ subMatches (path ++ "/" ++ n) cs = _
      rw [own_eq (path ++ "/" ++ n) cs, sub_eq (path ++ "/" ++ n) cs]
      show _ = (((fileNames cs).map (fun n2 => (path ++ "/" ++ n, n2))
          ++ subFileEntries (path ++ "/" ++ n) cs).filter _).map _
      rw [List.filter_append, List.map_append]

end

theorem discover_eq (path : String) (es : List Entry) :
    discoverFrom path es
      = ((allFileEntries path es).filter
          (fun pr => endsWithPy pr.2 ".ipynb")).map
            (fun pr => pr.1 ++ "/" ++ pr.2) := by
  unfold discoverFrom allFileEntries
  rw [own_eq, sub_eq, List.filter_append, List.map_append]

theorem noSlash_spec (s : String) (h : noSlash s = true) :
    ∀ x ∈ s.data, (!(x == '/')) = true := by
  intro x hx
  have h2 : ('/' : Char) ∉ s.data := by
    unfold noSlash at h
    simpa using h
  by_cases hx2 : x = '/'
  · exact absurd (hx2 ▸ hx) h2
  · simp [hx2]

theorem takeWhile_middle (P : Char → Bool) (l : List Char) (c : Char)
    (r : List Char) (hl : ∀ x ∈ l, P x = true) (hc : P c = false) :
    (l ++ c :: r).takeWhile P = l := by
  induction l with
  | nil => simp [List.takeWhile_cons, hc]
  | cons x xs ih =>
      have hx := hl x (by simp)
      simp [List.takeWhile_cons, hx, ih (fun y hy => hl y (by simp [hy]))]

theorem slashFree_prefix_eq (a b : String) (r s : List Char)
    (ha : noSlash a = true) (hb : noSlash b = true)
    (h : a.data ++ '/' :: r = b.data ++ '/' :: s) : a = b := by
  have h1 : (a.data ++ '/' :: r).takeWhile (fun c => !(c == '/')) = a.data :=
    takeWhile_middle _ _ _ _ (noSlash_spec a ha) (by simp)
  have h2 : (b.data ++ '/' :: s).takeWhile (fun c => !(c == '/')) = b.data :=
    takeWhile_middle _ _ _ _ (noSlash_spec b hb) (by simp)
  rw [h] at h1
  exact String.ext (h1.symm.trans h2)

theorem join_data (q n : String) :
    (q ++ "/" ++ n).data = q.data ++ '/' :: n.data := by
  rw [String.data_append, String.data_append, List.append_assoc]
  rfl

theorem fileshape_names_eq (q a b : String)
    (h : q.data ++ '/' :: a.data = q.data ++ '/' :: b.data) : a = b := by
  have h2 := List.append_cancel_left h
  injection h2 with _ h2
  exact String.ext h2

theorem dirshape_ne_fileshape (q a b : String) (r : List Char)
    (hb : noSlash b = true)
    (h : q.data ++ '/' :: (a.data ++ '/' :: r) = q.data ++ '/' :: b.data) :
    False := by
  have h2 := List.append_cancel_left h
  injection h2 with _ h2
  have hmem : ('/' : Char) ∈ b.data := by rw [← h2]; simp
  have h3 := noSlash_spec b hb '/' hmem
  simp at h3

theorem dirshape_names_eq (q a b : String) (r s : List Char)
    (ha : noSlash a = true) (hb : noSlash b = true)
    (h : q.data ++ '/' :: (a.data ++ '/' :: r)
       = q.data ++ '/' :: (b.data ++ '/' :: s)) : a = b := by
  have h2 := List.append_cancel_left h
  injection h2 with _ h2
  exact slashFree_prefix_eq a b r s ha hb h2

mutual

theorem nodup_all (q : String) (es : List Entry) (h : wfLevel es = true) :
    ((allFileEntries q es).map (fun pr => pr.1 ++ "/" ++ pr.2)).Nodup ∧
    ∀ p ∈ (allFileEntries q es).map (fun pr => pr.1 ++ "/" ++ pr.2),
      ∃ m, m ∈ entryNames es ∧ noSlash m = true ∧
        (p.data = q.data ++ '/' :: m.data ∨
         ∃ r, p.data = q.data ++ '/' :: (m.data ++ '/' :: r)) := by
  cases es with
  | nil =>
      constructor
      · simp [allFileEntries, fileNames, subFileEntries]
      · intro p hp
        simp [allFileEntries, fileNames, subFileEntries] at hp
  | cons e es =>
      unfold wfLevel at h
      rw [Bool.and_eq_true, Bool.and_eq_true, Bool.and_eq_true] at h
      obtain ⟨⟨⟨h1, h2⟩, h3⟩, h4⟩ := h
      have h2' : entryName e ∉ entryNames es := by simpa using h2
      obtain ⟨ndT, shT⟩ := nodup_all q es h4
      obtain ⟨ndE, shE⟩ := nodup_entry q e h3 h1
      cases e with
      | file n =>
          have heq : allFileEntries q (.file n :: es)
              = (q, n) :: allFileEntries q es := by
            simp [allFileEntries, fileNames, subFileEntries, entryFileEntries]
          rw [heq, List.map_cons]
          constructor
          · rw [List.nodup_cons]
            refine ⟨?_, ndT⟩
            intro hmem
            obtain ⟨m2, hm2, hns2, hcase⟩ := shT _ hmem
            have hd : ((fun pr : String × String => pr.1 ++ "/" ++ pr.2) (q, n)).data
                = q.data ++ '/' :: n.data := join_data q n
            cases hcase with
            | inl hh =>
                have := fileshape_names_eq q n m2 (hd.symm.trans hh)
                exact h2' (this ▸ hm2)
            | inr hh =>
                obtain ⟨r, hr⟩ := hh
                exact dirshape_ne_fileshape q m2 n r h1
                  ((hd.symm.trans hr).symm)
          · intro p hp
            rw [List.mem_cons] at hp
            cases hp with
            | inl hp =>
                refine ⟨n, by simp [entryNames, entryName], h1, .inl ?_⟩
                rw [hp]
                exact join_data q n
            | inr hp =>
                obtain ⟨m2, hm2, hns2, hcase⟩ := shT p hp
                exact ⟨m2, by simp [entryNames, hm2], hns2, hcase⟩
      | dir m cs =>
          have hshape := shE
          have hdisj : ∀ y ∈ (entryFileEntries q (.dir m cs)).map
                (fun pr => pr.1 ++ "/" ++ pr.2),
              y ∉ (allFileEntries q es).map (fun pr => pr.1 ++ "/" ++ pr.2) := by
            intro y hy hmem
            obtain ⟨r, hr⟩ := hshape y hy
            obtain ⟨m2, hm2, hns2, hcase⟩ := shT y hmem
            cases hcase with
            | inl hh =>
                exact dirshape_ne_fileshape q m m2 r hns2 (hr.symm.trans hh)
            | inr hh =>
                obtain ⟨s, hs⟩ := hh
                have := dirshape_names_eq q m m2 r s h1 hns2 (hr.symm.trans hs)
                exact h2' (this ▸ hm2)
          have heq : allFileEntries q (.dir m cs :: es)
              = (fileNames es).map (fun n => (q, n))
                ++ (entryFileEntries q (.dir m cs) ++ subFileEntries q es) := rfl
          have heqT : allFileEntries q es
              = (fileNames es).map (fun n => (q, n)) ++ subFileEntries q es := rfl
          rw [heq]
          rw [List.map_append, List.map_append]
          constructor
          · have hperm :
                (((fileNames es).map (fun n => (q, n))).map
                    (fun pr : String × String => pr.1 ++ "/" ++ pr.2)
                  ++ ((entryFileEntries q (.dir m cs)).map
                        (fun pr => pr.1 ++ "/" ++ pr.2)
                      ++ (subFileEntries q es).map
                        (fun pr => pr.1 ++ "/" ++ pr.2))).Perm
                ((entryFileEntries q (.dir m cs)).map
                    (fun pr => pr.1 ++ "/" ++ pr.2)
                  ++ (((fileNames es).map (fun n => (q, n))).map
                        (fun pr : String × String => pr.1 ++ "/" ++ pr.2)
                      ++ (subFileEntries q es).map
                        (fun pr => pr.1 ++ "/" ++ pr.2))) := by
              rw [← List.append_assoc, ← List.append_assoc]
              exact List.perm_append_comm.append_right _
            rw [hperm.nodup_iff, List.nodup_append]
            refine ⟨ndE, ?_, ?_⟩
            · rw [← List.map_append, ← heqT]
              exact ndT
            · intro y hy hmem
              rw [← List.map_append, ← heqT] at hmem
              exact hdisj y hy hmem
          · intro p hp
            rw [List.mem_append, List.mem_append] at hp
            rcases hp with hp | hp | hp
            · have hp2 : p ∈ (allFileEntries q es).map
                  (fun pr => pr.1 ++ "/" ++ pr.2) := by
                rw [heqT, List.map_append, List.mem_append]
                exact .inl hp
              obtain ⟨m2, hm2, hns2, hcase⟩ := shT p hp2
              exact ⟨m2, by simp [entryNames, hm2], hns2, hcase⟩
            · obtain ⟨r, hr⟩ := hshape p hp
              exact ⟨m, by simp [entryNames, entryName], h1, .inr ⟨r, hr⟩⟩
            · have hp2 : p ∈ (allFileEntries q es).map
                  (fun pr => pr.1 ++ "/" ++ pr.2) := by
                rw [heqT, List.map_append, List.mem_append]
                exact .inr hp
              obtain ⟨m2, hm2, hns2, hcase⟩ := shT p hp2
              exact ⟨m2, by simp [entryNames, hm2], hns2, hcase⟩

theorem nodup_entry (q : String) (e : Entry) (h : wfSub e = true)
    (hn : noSlash (entryName e) = true) :
    ((entryFileEntries q e).map (fun pr => pr.1 ++ "/" ++ pr.2)).Nodup ∧
    ∀ p ∈ (entryFileEntries q e).map (fun pr => pr.1 ++ "/" ++ pr.2),
      ∃ r, p.data = q.data ++ '/' :: ((entryName e).data ++ '/' :: r) := by
  cases e with
  | file n =>
      constructor
      · simp [entryFileEntries]
      · intro p hp
        simp [entryFileEntries] at hp
  | dir m cs =>
      obtain ⟨hnd, hshape⟩ := nodup_all (q ++ "/" ++ m) cs h
      constructor
      · exact hnd
      · intro p hp
        obtain ⟨m2, hm2, hns2, hcase⟩ := hshape p hp
        rw [join_data] at hcase
        cases hcase with
        | inl hh =>
            refine ⟨m2.data, ?_⟩
            rw [hh, List.append_assoc]
            rfl
        | inr hh =>
            obtain ⟨r, hr⟩ := hh
            refine ⟨m2.data ++ '/' :: r, ?_⟩
            rw [hr, List.append_assoc]
            rfl

end

/-- C8: discovery returns exactly the paths of the files of the tree, at any
depth, whose name ends in `.ipynb` (in walk order), and on any well-formed
directory tree (distinct, separator-free names per directory) the resulting
sequence has no duplicate path. -/
theorem C8_discovery (path : String) (es : List Entry) :
    discoverFrom path es
      = ((allFileEntries path es).filter
          (fun pr => endsWithPy pr.2 ".ipynb")).map
            (fun pr => pr.1 ++ "/" ++ pr.2) ∧
    (wfLevel es = true → (discoverFrom path es).Nodup) := by
  refine ⟨discover_eq path es, fun hwf => ?_⟩
  rw [discover_eq path es]
  have hsub : List.Sublist
      (((allFileEntries path es).filter
          (fun pr => endsWithPy pr.2 ".ipynb")).map
            (fun pr => pr.1 ++ "/" ++ pr.2))
      ((allFileEntries path es).map (fun pr => pr.1 ++ "/" ++ pr.2)) :=
    List.Sublist.map _ (List.filter_sublist _)
  exact List.Nodup.sublist hsub (nodup_all path es hwf).1

/-- Witness for C8 on a concrete nested tree. -/
theorem C8_discovery_witness :
    wfLevel treeC8 = true ∧ (discoverFrom "." treeC8).Nodup :=
  ⟨by decide, (C8_discovery "." treeC8).2 (by decide)⟩
